import Mathlib

/-!
# Task board dashboard (`src/components/Dashboard/dashboard.js`)

A shallow embedding of the state logic of the `Dashboard` component: the
column view `getColumnTasks`, the handlers `saveTask`, `deleteTask`,
`moveTask`, and the card hover handler of `TaskCard`.

Modelling conventions.

* The React state `tasks` is a `List Task`; a handler is a function from the
  collection it closes over, its arguments and the reply of the remote store
  to the list of effects it performs, in program order (`Event`).
  `tasksAfter` replays the `setTasks` calls of such a list.
* Ids and statuses are `JsVal`s, because the source compares ids with `===`
  against handler arguments and writes handler arguments into `status`, and the
  hover handler passes numbers there. Calling `toUpperCase` on a number throws
  a `TypeError`; `getColumnTasks` therefore returns an `Option`.
* `toUpperCase` / `toLowerCase` are host functions, passed as a `CaseHost`:
  the Unicode case conversions of ECMAScript, of which only their values on
  ASCII text are fixed here. `includes` is substring containment.
* `new Date(s)` and `toLocaleString` are host functions, passed as a
  `DateHost`. Stored `createdAt` strings are taken to be valid dates, so the
  difference of two dates is an integer (never `NaN`).
* Values other than strings and numbers (`undefined`, `null`) are not modelled,
  and neither is the `console.log` of line 176.
* `Array.prototype.sort` is stable (ECMAScript 2019), so with the consistent
  comparators used here its result is determined; it is modelled by a stable
  insertion sort.
-/

namespace Dashboard

/-! ## Data model -/

/-- JavaScript values that occur as task ids and statuses. -/
inductive JsVal where
  | str (s : String)
  | num (n : Int)
  deriving DecidableEq, Repr

/-- A task record as held in the `tasks` state: `_id`, `title`,
`description`, `status`, `createdAt`. -/
structure Task where
  _id : JsVal
  title : String
  description : String
  status : JsVal
  createdAt : String
  deriving DecidableEq, Repr

/-- An object naming some of the fields of a task: the argument of `saveTask`
and the body of a `PUT` / `POST` request. A field that is `none` is not named. -/
structure Patch where
  _id : Option JsVal
  title : Option String
  description : Option String
  status : Option JsVal
  createdAt : Option String
  deriving DecidableEq, Repr

/-- The object spread `{ ...t, ...p }`: fields named in `p` overwrite those of `t`. -/
def spread (t : Task) (p : Patch) : Task where
  _id := p._id.getD t._id
  title := p.title.getD t.title
  description := p.description.getD t.description
  status := p.status.getD t.status
  createdAt := p.createdAt.getD t.createdAt

/-- The host's date functions: the time value of `new Date(s)` in milliseconds
and `toLocaleString('en-IN', { timeZone: 'Asia/Kolkata' })` of a time value. -/
structure DateHost where
  dateValue : String → Int
  toLocaleString : Int → String

/-! ## String primitives -/

/-- The small letters `a`-`z` of a text replaced by capitals, other characters kept. -/
def asciiUpper (s : String) : String := ⟨s.data.map Char.toUpper⟩

/-- The capitals `A`-`Z` of a text replaced by small letters, other characters kept. -/
def asciiLower (s : String) : String := ⟨s.data.map Char.toLower⟩

/-- Whether every character of a text is an ASCII character. -/
def isAscii (s : String) : Bool := s.data.all (fun c => decide (c.toNat < 128))

/-- The host's `String.prototype.toUpperCase` and `String.prototype.toLowerCase`.
They convert by the Unicode case mappings (`'ÉCOLE'` to `'école'`, `'ß'` to
`'SS'`); what is recorded of them is their value on ASCII text, where the
mappings touch the letters `a`-`z` and `A`-`Z` only. -/
structure CaseHost where
  toUpperCase : String → String
  toLowerCase : String → String
  toUpperCase_ascii : ∀ s, isAscii s = true → toUpperCase s = asciiUpper s
  toLowerCase_ascii : ∀ s, isAscii s = true → toLowerCase s = asciiLower s

/-- Whether `needle` occurs in `hay` as a contiguous block. -/
def includesChars : List Char → List Char → Bool
  | [], needle => needle.isEmpty
  | c :: cs, needle => needle.isPrefixOf (c :: cs) || includesChars cs needle

/-- The method `String.prototype.includes`. -/
def includes (hay needle : String) : Bool := includesChars hay.data needle.data

/-- Template-literal conversion of an id to text. -/
def JsVal.toText : JsVal → String
  | .str s => s
  | .num n => toString n

/-! ## The column view -/

/-- The function `formatDateToLocal` (lines 11-14): the date in the locale
`en-IN` and the time zone `Asia/Kolkata`, whatever the zone of the host. -/
def formatDateToLocal (D : DateHost) (dateString : String) : String :=
  D.toLocaleString (D.dateValue dateString)

/-- The filter predicate of line 174. `none` is the `TypeError` raised by
`task.status.toUpperCase()` when the status is not a string. -/
def columnPredicate (C : CaseHost) (searchTerm status : String) (task : Task) :
    Option Bool :=
  match task.status with
  | .str s =>
    some (C.toUpperCase s == C.toUpperCase status
      && includes (C.toLowerCase task.title) (C.toLowerCase searchTerm))
  | .num _ => none

/-- The method `Array.prototype.filter` with a callback that may throw. -/
def filterThrowing (p : Task → Option Bool) : List Task → Option (List Task)
  | [] => some []
  | t :: ts =>
    match p t with
    | none => none
    | some keep =>
      match filterThrowing p ts with
      | none => none
      | some rest => some (if keep then t :: rest else rest)

/-- The comparator of lines 178-185. -/
def compareTasks (D : DateHost) (sortBy : String) (a b : Task) : Int :=
  if sortBy = "recent" then D.dateValue b.createdAt - D.dateValue a.createdAt
  else if sortBy = "oldest" then D.dateValue a.createdAt - D.dateValue b.createdAt
  else 0

/-- Insertion of `a` in front of the first element it does not come after. -/
def insertBy (cmp : Task → Task → Int) (a : Task) : List Task → List Task
  | [] => [a]
  | b :: l => if cmp a b ≤ 0 then a :: b :: l else b :: insertBy cmp a l

/-- The method `Array.prototype.sort(cmp)`: stable sort by the comparator. -/
def arraySort (cmp : Task → Task → Int) : List Task → List Task
  | [] => []
  | a :: l => insertBy cmp a (arraySort cmp l)

/-- The record built at lines 187-190: the task with its `createdAt` replaced
by the formatted date. -/
def displayed (D : DateHost) (task : Task) : Task :=
  { task with createdAt := formatDateToLocal D task.createdAt }

/-- The function `getColumnTasks` (lines 173-191), with the state it closes over
(`tasks`, `searchTerm`, `sortBy`) as arguments. -/
def getColumnTasks (C : CaseHost) (D : DateHost) (tasks : List Task)
    (searchTerm sortBy : String) (status : String) : Option (List Task) :=
  match filterThrowing (columnPredicate C searchTerm status) tasks with
  | none => none
  | some filteredTasks =>
    let sortedTasks := arraySort (compareTasks D sortBy) filteredTasks
    some (sortedTasks.map (displayed D))

/-! ## Handlers -/

/-- Outcome of an awaited axios call: rejected, or resolved with `response.data`. -/
inductive Reply (α : Type) where
  | failure
  | success (data : α)
  deriving DecidableEq, Repr

/-- HTTP methods used by the handlers. -/
inductive Method where
  | POST
  | PUT
  | DELETE
  deriving DecidableEq, Repr

/-- A request submitted to the remote store. -/
structure Request where
  method : Method
  url : String
  body : Option Patch
  deriving DecidableEq, Repr

/-- Effects of a handler, in program order. -/
inductive Event where
  | request (r : Request)
  | setTasks (ts : List Task)
  | closeModal
  | consoleError (msg : String)
  deriving DecidableEq, Repr

/-- The collection after the effects: the argument of the last `setTasks`. -/
def tasksAfter (tasks : List Task) (evs : List Event) : List Task :=
  evs.foldl (fun ts e => match e with
    | .setTasks ts2 => ts2
    | _ => ts) tasks

/-- The requests among the effects. -/
def requestsOf (evs : List Event) : List Request :=
  evs.filterMap (fun e => match e with
    | .request r => some r
    | _ => none)

/-- The address of one task at the store. -/
def todoUrl (id : JsVal) : String := "http://localhost:3000/api/todos/" ++ id.toText

/-- The body of the `POST` at line 126: `{ ...task, status: 'TODO', createdAt: now }`. -/
def createBody (task : Patch) (now : String) : Patch :=
  { task with status := some (.str "TODO"), createdAt := some now }

/-- The handler `saveTask` (lines 116-137). `now` is `new Date().toISOString()`. -/
def saveTask (tasks : List Task) (currentTask : Option Task) (task : Patch) (now : String)
    (reply : Reply Task) : List Event :=
  match currentTask with
  | some cur =>
    Event.request ⟨.PUT, todoUrl cur._id, some task⟩ ::
      (match reply with
        | .success _ =>
          [.setTasks (tasks.map (fun t => if t._id = cur._id then spread t task else t)),
            .closeModal]
        | .failure => [.consoleError "Error saving task:"])
  | none =>
    Event.request ⟨.POST, "http://localhost:3000/api/todos", some (createBody task now)⟩ ::
      (match reply with
        | .success data => [.setTasks (tasks ++ [data]), .closeModal]
        | .failure => [.consoleError "Error saving task:"])

/-- The handler `deleteTask` (lines 139-150). -/
def deleteTask (tasks : List Task) (id : JsVal) (reply : Reply Unit) : List Event :=
  Event.request ⟨.DELETE, todoUrl id, none⟩ ::
    (match reply with
      | .success _ => [.setTasks (tasks.filter (fun t => t._id ≠ id))]
      | .failure => [.consoleError "Error deleting task:"])

/-- The collection `updatedTasks` built at lines 153-158. -/
def updatedTasks (tasks : List Task) (taskId targetStatus : JsVal) : List Task :=
  tasks.map (fun task => if task._id = taskId then { task with status := targetStatus } else task)

/-- The handler `moveTask` (lines 152-171). -/
def moveTask (tasks : List Task) (taskId targetStatus : JsVal) (reply : Reply Unit) :
    List Event :=
  [.setTasks (updatedTasks tasks taskId targetStatus),
    .request ⟨.PUT, todoUrl taskId, some ⟨none, none, none, some targetStatus, none⟩⟩] ++
    (match reply with
      | .success _ => []
      | .failure => [.consoleError "Error updating task status:"])

/-- The `hover` callback of a card (lines 30-35): `item.index` is the index of
the dragged card, `index` that of the card hovered over. Returns the effects
and the new value of `item.index`. -/
def hover (tasks : List Task) (itemIndex index : Nat) (reply : Reply Unit) :
    List Event × Nat :=
  if itemIndex ≠ index then
    (moveTask tasks (.num itemIndex) (.num index) reply, index)
  else ([], itemIndex)

/-- The statuses of the columns rendered at line 275. -/
def columnStatuses : List String := ["TO DO", "IN PROGRESS", "DONE"]

/-! ## Sample data -/

/-- The case conversions on ASCII letters only. -/
def asciiCase : CaseHost where
  toUpperCase := asciiUpper
  toLowerCase := asciiLower
  toUpperCase_ascii := fun _ _ => rfl
  toLowerCase_ascii := fun _ _ => rfl

/-- A host that knows two dates. -/
def sampleHost : DateHost where
  dateValue := fun s =>
    if s = "2024-01-01T00:00:00.000Z" then 1704067200000
    else if s = "2024-01-02T00:00:00.000Z" then 1704153600000
    else 0
  toLocaleString := fun n =>
    if n = 1704067200000 then "1/1/2024, 5:30:00 am"
    else if n = 1704153600000 then "2/1/2024, 5:30:00 am"
    else "1/1/1970, 5:30:00 am"

/-- The collection of the scenario: two to-do tasks, the second more recent. -/
def scenario : List Task :=
  [⟨.str "1", "A", "", .str "TODO", "2024-01-01T00:00:00.000Z"⟩,
   ⟨.str "2", "B", "", .str "TODO", "2024-01-02T00:00:00.000Z"⟩]

/-- Two tasks of the first rendered column with titles in mixed case. -/
def errands : List Task :=
  [⟨.str "1", "Buy Milk", "", .str "TO DO", "2024-01-01T00:00:00.000Z"⟩,
   ⟨.str "2", "Walk dog", "", .str "TO DO", "2024-01-02T00:00:00.000Z"⟩]

/-- A board with one task in the first rendered column. -/
def board : List Task :=
  [⟨.str "1", "A", "", .str "TO DO", "2024-01-01T00:00:00.000Z"⟩]

/-- The scenario's collection with arbitrary creation dates. -/
def scenarioAt (t1 t2 : String) : List Task :=
  [⟨.str "1", "A", "", .str "TODO", t1⟩, ⟨.str "2", "B", "", .str "TODO", t2⟩]

/-- The record the store returns for the draft titled `B`: the submitted body
with an id added. -/
def createdRecord : Task :=
  ⟨.str "2", "B", "", .str "TODO", "2024-01-02T00:00:00.000Z"⟩

/-! ## Auxiliary predicates used in the statements -/

/-- Whether a value is a string. -/
def JsVal.isStr : JsVal → Bool
  | .str _ => true
  | .num _ => false

/-- Every status of the collection is a string, as the data model has it. -/
def StringStatuses (tasks : List Task) : Prop := ∀ t ∈ tasks, t.status.isStr = true

instance (tasks : List Task) : Decidable (StringStatuses tasks) := by
  unfold StringStatuses; infer_instance

/-- The filter predicate of line 174 on a collection whose statuses are strings. -/
def inColumn (C : CaseHost) (searchTerm status : String) (task : Task) : Bool :=
  match task.status with
  | .str s =>
    C.toUpperCase s == C.toUpperCase status
      && includes (C.toLowerCase task.title) (C.toLowerCase searchTerm)
  | .num _ => false

/-- The status strings of the data model and of the source: the enum values
`TODO`, `IN_PROGRESS`, `DONE`, the status `'TODO'` written at line 126 and the
column statuses `'TO DO'`, `'IN PROGRESS'`, `'DONE'` of line 275. -/
def knownStatuses : List String := ["TODO", "IN_PROGRESS", "DONE", "TO DO", "IN PROGRESS"]

/-- Whether the title and the status of a task are ASCII text. -/
def asciiTask (t : Task) : Bool :=
  isAscii t.title && (match t.status with
    | .str s => isAscii s
    | .num _ => true)

/-- The merge described for update: `u` has every field named in `p` set to the
value `p` gives it and every other field as in `t`. -/
def PatchedFrom (t : Task) (p : Patch) (u : Task) : Prop :=
  ((∀ v, p._id = some v → u._id = v) ∧ (p._id = none → u._id = t._id))
  ∧ ((∀ v, p.title = some v → u.title = v) ∧ (p.title = none → u.title = t.title))
  ∧ ((∀ v, p.description = some v → u.description = v)
      ∧ (p.description = none → u.description = t.description))
  ∧ ((∀ v, p.status = some v → u.status = v) ∧ (p.status = none → u.status = t.status))
  ∧ ((∀ v, p.createdAt = some v → u.createdAt = v)
      ∧ (p.createdAt = none → u.createdAt = t.createdAt))

/-- The three status values as the data model names them. -/
def enumStatuses : List String := ["TODO", "IN_PROGRESS", "DONE"]

/-- Every task's status is one of the strings in `allowed`. -/
def StatusesIn (allowed : List String) (tasks : List Task) : Prop :=
  ∀ t ∈ tasks, ∃ s ∈ allowed, t.status = .str s

instance (allowed : List String) (tasks : List Task) : Decidable (StatusesIn allowed tasks) := by
  unfold StatusesIn; infer_instance

/-- The time value of a task's `createdAt`. -/
def created (D : DateHost) (t : Task) : Int := D.dateValue t.createdAt

/-! ## Lemmas on the string primitives -/

theorem includesChars_nil (hay : List Char) : includesChars hay [] = true := by
  cases hay <;> simp [includesChars]

theorem includesChars_iff_sub (hay needle : List Char) :
    includesChars hay needle = true ↔ needle <:+: hay := by
  induction hay with
  | nil => simp [includesChars, List.isEmpty_iff]
  | cons c cs ih =>
    rw [includesChars, Bool.or_eq_true, ih, List.isPrefixOf_iff_prefix, List.infix_cons_iff]

theorem includes_iff_sub (hay needle : String) :
    includes hay needle = true ↔ needle.data <:+: hay.data :=
  includesChars_iff_sub hay.data needle.data

theorem includes_empty (C : CaseHost) (hay : String) :
    includes hay (C.toLowerCase "") = true := by
  have h : C.toLowerCase "" = "" := C.toLowerCase_ascii "" rfl
  rw [includes, h]
  exact includesChars_nil _

theorem isAscii_of_mem_knownStatuses (s : String) (h : s ∈ knownStatuses) :
    isAscii s = true := by
  simp only [knownStatuses, List.mem_cons, List.mem_singleton, List.not_mem_nil, or_false] at h
  rcases h with rfl | rfl | rfl | rfl | rfl <;> decide

theorem asciiUpper_of_mem_knownStatuses (s : String) (h : s ∈ knownStatuses) :
    asciiUpper s = s := by
  simp only [knownStatuses, List.mem_cons, List.mem_singleton, List.not_mem_nil, or_false] at h
  rcases h with rfl | rfl | rfl | rfl | rfl <;> decide

theorem toUpperCase_of_mem_knownStatuses (C : CaseHost) (s : String)
    (h : s ∈ knownStatuses) : C.toUpperCase s = s := by
  rw [C.toUpperCase_ascii s (isAscii_of_mem_knownStatuses s h),
    asciiUpper_of_mem_knownStatuses s h]

theorem mem_knownStatuses_of_mem_columnStatuses (s : String) (h : s ∈ columnStatuses) :
    s ∈ knownStatuses := by
  simp only [columnStatuses, List.mem_cons, List.mem_singleton, List.not_mem_nil, or_false] at h
  rcases h with rfl | rfl | rfl <;> decide

/-! ## Lemmas on the filter -/

theorem columnPredicate_of_isStr (C : CaseHost) (searchTerm status : String) (t : Task)
    (h : t.status.isStr = true) :
    columnPredicate C searchTerm status t = some (inColumn C searchTerm status t) := by
  unfold columnPredicate inColumn
  cases hs : t.status with
  | str s => rfl
  | num n => rw [hs] at h; simp [JsVal.isStr] at h

theorem filterThrowing_of_stringStatuses (C : CaseHost) (searchTerm status : String) :
    ∀ tasks : List Task, StringStatuses tasks →
      filterThrowing (columnPredicate C searchTerm status) tasks
        = some (tasks.filter (inColumn C searchTerm status))
  | [], _ => rfl
  | t :: ts, h => by
    have ht : t.status.isStr = true := h t (List.mem_cons_self _ _)
    have hts : StringStatuses ts := fun x hx => h x (List.mem_cons_of_mem _ hx)
    rw [filterThrowing, columnPredicate_of_isStr _ _ _ _ ht,
      filterThrowing_of_stringStatuses C searchTerm status ts hts]
    cases hk : inColumn C searchTerm status t <;> simp [List.filter_cons, hk]

theorem getColumnTasks_of_stringStatuses (C : CaseHost) (D : DateHost) (tasks : List Task)
    (searchTerm sortBy status : String) (h : StringStatuses tasks) :
    getColumnTasks C D tasks searchTerm sortBy status
      = some ((arraySort (compareTasks D sortBy)
          (tasks.filter (inColumn C searchTerm status))).map (displayed D)) := by
  unfold getColumnTasks
  rw [filterThrowing_of_stringStatuses C searchTerm status tasks h]

theorem filterThrowing_eq_none_iff (C : CaseHost) (searchTerm status : String) :
    ∀ tasks : List Task,
      filterThrowing (columnPredicate C searchTerm status) tasks = none
        ↔ ¬ StringStatuses tasks
  | [] => by simp [filterThrowing, StringStatuses]
  | t :: ts => by
    have ih := filterThrowing_eq_none_iff C searchTerm status ts
    rw [filterThrowing]
    cases hs : t.status with
    | str s =>
      have hp : columnPredicate C searchTerm status t
          = some (inColumn C searchTerm status t) :=
        columnPredicate_of_isStr _ _ _ _ (by rw [hs]; rfl)
      rw [hp]
      cases hf : filterThrowing (columnPredicate C searchTerm status) ts with
      | none =>
        have hts : ¬ StringStatuses ts := ih.mp hf
        simp only [true_iff]
        exact fun h => hts (fun x hx => h x (List.mem_cons_of_mem _ hx))
      | some rest =>
        have hts : StringStatuses ts := by
          by_contra hc
          rw [ih.mpr hc] at hf
          cases hf
        simp only [reduceCtorEq, false_iff, not_not]
        intro x hx
        rcases List.mem_cons.mp hx with rfl | hx
        · rw [hs]; rfl
        · exact hts x hx
    | num n =>
      have hp : columnPredicate C searchTerm status t = none := by
        unfold columnPredicate; rw [hs]
      rw [hp]
      simp only [true_iff]
      intro h
      have := h t (List.mem_cons_self _ _)
      rw [hs] at this
      cases this

theorem getColumnTasks_eq_none_iff (C : CaseHost) (D : DateHost) (tasks : List Task)
    (searchTerm sortBy status : String) :
    getColumnTasks C D tasks searchTerm sortBy status = none ↔ ¬ StringStatuses tasks := by
  rw [← filterThrowing_eq_none_iff C searchTerm status tasks]
  unfold getColumnTasks
  cases filterThrowing (columnPredicate C searchTerm status) tasks <;> simp

theorem stringStatuses_of_statusesIn (allowed : List String) (tasks : List Task)
    (h : StatusesIn allowed tasks) : StringStatuses tasks := by
  intro t ht
  obtain ⟨s, _, hs⟩ := h t ht
  rw [hs]; rfl

theorem filterThrowing_congr (p q : Task → Option Bool) :
    ∀ tasks : List Task, (∀ t ∈ tasks, p t = q t) →
      filterThrowing p tasks = filterThrowing q tasks
  | [], _ => rfl
  | t :: ts, h => by
    rw [filterThrowing, filterThrowing, h t (List.mem_cons_self _ _),
      filterThrowing_congr p q ts (fun x hx => h x (List.mem_cons_of_mem _ hx))]

theorem columnPredicate_ascii (C : CaseHost) (searchTerm status : String) (t : Task)
    (hterm : isAscii searchTerm = true) (hstatus : isAscii status = true)
    (ht : asciiTask t = true) :
    columnPredicate C searchTerm status t = columnPredicate asciiCase searchTerm status t := by
  unfold asciiTask at ht
  unfold columnPredicate
  cases hs : t.status with
  | str s =>
    rw [hs] at ht
    simp only [Bool.and_eq_true] at ht
    simp only [asciiCase]
    rw [C.toUpperCase_ascii s ht.2, C.toUpperCase_ascii status hstatus,
      C.toLowerCase_ascii t.title ht.1, C.toLowerCase_ascii searchTerm hterm]
  | num n => rfl

theorem getColumnTasks_ascii (C : CaseHost) (D : DateHost) (tasks : List Task)
    (searchTerm sortBy status : String)
    (hterm : isAscii searchTerm = true) (hstatus : isAscii status = true)
    (htasks : tasks.all asciiTask = true) :
    getColumnTasks C D tasks searchTerm sortBy status
      = getColumnTasks asciiCase D tasks searchTerm sortBy status := by
  unfold getColumnTasks
  rw [filterThrowing_congr (columnPredicate C searchTerm status)
    (columnPredicate asciiCase searchTerm status) tasks
    (fun t ht => columnPredicate_ascii C searchTerm status t hterm hstatus
      (List.all_eq_true.mp htasks t ht))]

theorem inColumn_iff (C : CaseHost) (searchTerm status : String) (t : Task) :
    inColumn C searchTerm status t = true ↔
      ∃ s, t.status = .str s ∧ C.toUpperCase s = C.toUpperCase status
        ∧ (C.toLowerCase searchTerm).data <:+: (C.toLowerCase t.title).data := by
  unfold inColumn
  cases hs : t.status with
  | str s => simp [includes_iff_sub]
  | num n => simp

/-! ## Lemmas on the sort -/

theorem insertBy_perm (cmp : Task → Task → Int) (a : Task) :
    ∀ l : List Task, (insertBy cmp a l).Perm (a :: l)
  | [] => List.Perm.refl _
  | b :: l => by
    unfold insertBy
    split
    · exact List.Perm.refl _
    · exact ((insertBy_perm cmp a l).cons b).trans (List.Perm.swap a b l)

theorem arraySort_perm (cmp : Task → Task → Int) : ∀ l : List Task, (arraySort cmp l).Perm l
  | [] => List.Perm.refl _
  | a :: l => (insertBy_perm cmp a (arraySort cmp l)).trans ((arraySort_perm cmp l).cons a)

theorem mem_arraySort (cmp : Task → Task → Int) (l : List Task) (t : Task) :
    t ∈ arraySort cmp l ↔ t ∈ l := (arraySort_perm cmp l).mem_iff

theorem insertBy_pairwise (cmp : Task → Task → Int)
    (htotal : ∀ a b, cmp a b ≤ 0 ∨ cmp b a ≤ 0)
    (htrans : ∀ a b c, cmp a b ≤ 0 → cmp b c ≤ 0 → cmp a c ≤ 0) (a : Task) :
    ∀ l : List Task, l.Pairwise (fun x y => cmp x y ≤ 0) →
      (insertBy cmp a l).Pairwise (fun x y => cmp x y ≤ 0)
  | [], _ => List.pairwise_singleton _ _
  | b :: l, h => by
    unfold insertBy
    rw [List.pairwise_cons] at h
    split
    · rename_i hab
      refine List.pairwise_cons.mpr ⟨?_, List.pairwise_cons.mpr h⟩
      intro x hx
      rcases List.mem_cons.mp hx with rfl | hx
      · exact hab
      · exact htrans _ _ _ hab (h.1 x hx)
    · rename_i hab
      have hba : cmp b a ≤ 0 := (htotal a b).resolve_left hab
      refine List.pairwise_cons.mpr ⟨?_, insertBy_pairwise cmp htotal htrans a l h.2⟩
      intro x hx
      rcases List.mem_cons.mp ((insertBy_perm cmp a l).mem_iff.mp hx) with rfl | hx
      · exact hba
      · exact h.1 x hx

theorem arraySort_pairwise (cmp : Task → Task → Int)
    (htotal : ∀ a b, cmp a b ≤ 0 ∨ cmp b a ≤ 0)
    (htrans : ∀ a b c, cmp a b ≤ 0 → cmp b c ≤ 0 → cmp a c ≤ 0) :
    ∀ l : List Task, (arraySort cmp l).Pairwise (fun x y => cmp x y ≤ 0)
  | [] => List.Pairwise.nil
  | a :: l => insertBy_pairwise cmp htotal htrans a _ (arraySort_pairwise cmp htotal htrans l)

theorem filter_insertBy (cmp : Task → Task → Int) (p : Task → Bool)
    (htie : ∀ a b, p a = true → p b = true → cmp a b ≤ 0) (a : Task) :
    ∀ l : List Task, (insertBy cmp a l).filter p = (a :: l).filter p
  | [] => rfl
  | b :: l => by
    unfold insertBy
    split
    · rfl
    · rename_i hab
      have ih := filter_insertBy cmp p htie a l
      cases hpa : p a
      · simp only [List.filter_cons, hpa] at ih ⊢
        simp [ih]
      · have hpb : p b = false := by
          cases hpb : p b
          · rfl
          · exact absurd (htie a b hpa hpb) hab
        simp only [List.filter_cons, hpa, hpb] at ih ⊢
        simpa using ih

theorem filter_arraySort (cmp : Task → Task → Int) (p : Task → Bool)
    (htie : ∀ a b, p a = true → p b = true → cmp a b ≤ 0) :
    ∀ l : List Task, (arraySort cmp l).filter p = l.filter p
  | [] => rfl
  | a :: l => by
    rw [arraySort, filter_insertBy cmp p htie a, List.filter_cons, List.filter_cons,
      filter_arraySort cmp p htie l]

/-! ## The column view: membership -/

theorem errands_filtered :
    filterThrowing (columnPredicate asciiCase "MILK" "to do") errands
      = some [⟨.str "1", "Buy Milk", "", .str "TO DO", "2024-01-01T00:00:00.000Z"⟩] := by
  decide

theorem errands_view (C : CaseHost) (D : DateHost) (sortBy : String) :
    getColumnTasks C D errands "MILK" sortBy "to do"
      = some [displayed D ⟨.str "1", "Buy Milk", "", .str "TO DO", "2024-01-01T00:00:00.000Z"⟩] := by
  rw [getColumnTasks_ascii C D errands "MILK" sortBy "to do" (by decide) (by decide)
    (by decide)]
  unfold getColumnTasks
  rw [errands_filtered]
  rfl

/-- C1: for every collection whose statuses are status strings of the data
model or of the source and every task `t` in it, the view
`getColumnTasks(t.status)` with an empty search term and mode `'recent'` is
produced, contains a record with the id of `t`, and contains no record whose
status differs from that of `t`. -/
theorem getColumnTasks_own_status (C : CaseHost) (D : DateHost) (tasks : List Task)
    (t : Task) (s : String)
    (hdom : StatusesIn knownStatuses tasks) (ht : t ∈ tasks) (hs : t.status = .str s) :
    ∃ res, getColumnTasks C D tasks "" "recent" s = some res
      ∧ (∃ r ∈ res, r._id = t._id)
      ∧ ∀ r ∈ res, r.status = t.status := by
  refine ⟨_, getColumnTasks_of_stringStatuses C D tasks "" "recent" s
    (stringStatuses_of_statusesIn _ _ hdom), ?_, ?_⟩
  · refine ⟨displayed D t, List.mem_map.mpr ⟨t, ?_, rfl⟩, rfl⟩
    rw [mem_arraySort, List.mem_filter]
    refine ⟨ht, ?_⟩
    simp only [inColumn, hs, beq_self_eq_true, Bool.true_and]
    exact includes_empty C _
  · intro r hr
    obtain ⟨u, hu, rfl⟩ := List.mem_map.mp hr
    rw [mem_arraySort, List.mem_filter] at hu
    obtain ⟨s2, h2, hup, _⟩ := (inColumn_iff _ _ _ _).mp hu.2
    obtain ⟨k, hk, hku⟩ := hdom u hu.1
    obtain ⟨k2, hk2, hkt⟩ := hdom t ht
    have e2 : k = s2 := by rw [hku] at h2; injection h2
    have e1 : k2 = s := by rw [hkt] at hs; injection hs
    subst e1 e2
    rw [toUpperCase_of_mem_knownStatuses C k hk,
      toUpperCase_of_mem_knownStatuses C k2 hk2] at hup
    show u.status = t.status
    rw [hku, hkt, hup]

/-- Instance of the preceding theorem: the scenario and its first task. -/
theorem getColumnTasks_own_status_witness :
    StatusesIn knownStatuses scenario
    ∧ (⟨.str "1", "A", "", .str "TODO", "2024-01-01T00:00:00.000Z"⟩ : Task) ∈ scenario
    ∧ ∃ res, getColumnTasks asciiCase sampleHost scenario "" "recent" "TODO" = some res
      ∧ (∃ r ∈ res, r._id = .str "1")
      ∧ ∀ r ∈ res, r.status = .str "TODO" :=
  ⟨by decide, by decide,
    getColumnTasks_own_status asciiCase sampleHost scenario
      ⟨.str "1", "A", "", .str "TODO", "2024-01-01T00:00:00.000Z"⟩ "TODO"
      (by decide) (by decide) rfl⟩

/-- C2: for a collection whose statuses are strings, any status, sort mode and
search term `s`, the view is produced; the title of every returned record,
lower-cased by the host, contains `s` lower-cased by the host as a substring;
and every task of the collection whose status matches the column (both
upper-cased by the host) and whose lower-cased title contains the lower-cased
`s` is returned, as its displayed record. On ASCII text the conversions are the
letter-case foldings: of the two errands in the column `'TO DO'`, the view of
`'to do'` with the term `'MILK'` is the one titled `'Buy Milk'`. -/
theorem getColumnTasks_search (C : CaseHost) (D : DateHost) (tasks : List Task)
    (status sortBy s : String) (hall : StringStatuses tasks) :
    (∃ res, getColumnTasks C D tasks s sortBy status = some res
      ∧ (∀ r ∈ res, (C.toLowerCase s).data <:+: (C.toLowerCase r.title).data)
      ∧ ∀ t ∈ tasks, ∀ st, t.status = .str st → C.toUpperCase st = C.toUpperCase status →
          (C.toLowerCase s).data <:+: (C.toLowerCase t.title).data → displayed D t ∈ res)
    ∧ getColumnTasks C D errands "MILK" sortBy "to do"
        = some [displayed D
            ⟨.str "1", "Buy Milk", "", .str "TO DO", "2024-01-01T00:00:00.000Z"⟩] := by
  refine ⟨⟨_, getColumnTasks_of_stringStatuses C D tasks s sortBy status hall, ?_, ?_⟩,
    errands_view C D sortBy⟩
  · intro r hr
    obtain ⟨u, hu, rfl⟩ := List.mem_map.mp hr
    rw [mem_arraySort, List.mem_filter] at hu
    obtain ⟨_, _, _, hin⟩ := (inColumn_iff _ _ _ _).mp hu.2
    exact hin
  · intro t ht st hst hup hin
    refine List.mem_map.mpr ⟨t, ?_, rfl⟩
    rw [mem_arraySort, List.mem_filter]
    exact ⟨ht, (inColumn_iff _ _ _ _).mpr ⟨st, hst, hup, hin⟩⟩

/-- Instance of the preceding theorem: the scenario, column `'todo'`, term `'b'`. -/
theorem getColumnTasks_search_witness :
    StringStatuses scenario
    ∧ (∃ res, getColumnTasks asciiCase sampleHost scenario "b" "oldest" "todo" = some res
      ∧ (∀ r ∈ res, (asciiCase.toLowerCase "b").data <:+: (asciiCase.toLowerCase r.title).data)
      ∧ ∀ t ∈ scenario, ∀ st, t.status = .str st →
          asciiCase.toUpperCase st = asciiCase.toUpperCase "todo" →
          (asciiCase.toLowerCase "b").data <:+: (asciiCase.toLowerCase t.title).data →
          displayed sampleHost t ∈ res)
    ∧ getColumnTasks asciiCase sampleHost errands "MILK" "oldest" "to do"
        = some [displayed sampleHost
            ⟨.str "1", "Buy Milk", "", .str "TO DO", "2024-01-01T00:00:00.000Z"⟩] :=
  ⟨by decide,
    getColumnTasks_search asciiCase sampleHost scenario "todo" "oldest" "b" (by decide)⟩

/-! ## The column view: order -/

theorem compareTasks_recent (D : DateHost) (a b : Task) :
    compareTasks D "recent" a b ≤ 0 ↔ created D b ≤ created D a := by
  simp [compareTasks, created]

theorem compareTasks_oldest (D : DateHost) (a b : Task) :
    compareTasks D "oldest" a b ≤ 0 ↔ created D a ≤ created D b := by
  simp [compareTasks, created]

theorem arraySort_recent_pairwise (D : DateHost) (l : List Task) :
    (arraySort (compareTasks D "recent") l).Pairwise (fun a b => created D b ≤ created D a) := by
  have h := arraySort_pairwise (compareTasks D "recent")
    (fun a b => by simp only [compareTasks_recent]; exact le_total _ _)
    (fun a b c => by simp only [compareTasks_recent]; exact fun h1 h2 => le_trans h2 h1) l
  exact h.imp (fun {a b} hab => (compareTasks_recent D a b).mp hab)

theorem arraySort_oldest_pairwise (D : DateHost) (l : List Task) :
    (arraySort (compareTasks D "oldest") l).Pairwise (fun a b => created D a ≤ created D b) := by
  have h := arraySort_pairwise (compareTasks D "oldest")
    (fun a b => by simp only [compareTasks_oldest]; exact le_total _ _)
    (fun a b c => by simp only [compareTasks_oldest]; exact fun h1 h2 => le_trans h1 h2) l
  exact h.imp (fun {a b} hab => (compareTasks_oldest D a b).mp hab)

theorem arraySort_ties_sublist (D : DateHost) (sortBy : String) (tasks : List Task)
    (q : Task → Bool) (c : Int) :
    ((arraySort (compareTasks D sortBy) (tasks.filter q)).filter
      (fun t => decide (created D t = c))).Sublist tasks := by
  rw [filter_arraySort]
  · exact (List.filter_sublist _).trans (List.filter_sublist _)
  · intro a b ha hb
    have ha2 : D.dateValue a.createdAt = c := by simpa [created] using ha
    have hb2 : D.dateValue b.createdAt = c := by simpa [created] using hb
    unfold compareTasks
    split
    · omega
    · split
      · omega
      · exact le_refl _

/-- C3: for a collection whose statuses are strings, any status and search
term, the view in mode `'recent'` displays a list of tasks ordered by
`createdAt` non-increasing, the view in mode `'oldest'` one ordered
non-decreasing, and in both the tasks with one and the same `createdAt` value
stand in the order they have in the collection (they form a sublist of it). -/
theorem getColumnTasks_sorted_stable (C : CaseHost) (D : DateHost) (tasks : List Task)
    (status searchTerm : String) (hall : StringStatuses tasks) :
    (∃ l : List Task,
        getColumnTasks C D tasks searchTerm "recent" status = some (l.map (displayed D))
      ∧ l.Pairwise (fun a b => created D b ≤ created D a)
      ∧ ∀ c : Int, (l.filter (fun t => decide (created D t = c))).Sublist tasks)
    ∧ (∃ l : List Task,
        getColumnTasks C D tasks searchTerm "oldest" status = some (l.map (displayed D))
      ∧ l.Pairwise (fun a b => created D a ≤ created D b)
      ∧ ∀ c : Int, (l.filter (fun t => decide (created D t = c))).Sublist tasks) :=
  ⟨⟨_, getColumnTasks_of_stringStatuses C D tasks searchTerm "recent" status hall,
      arraySort_recent_pairwise D _, arraySort_ties_sublist D "recent" tasks _⟩,
    ⟨_, getColumnTasks_of_stringStatuses C D tasks searchTerm "oldest" status hall,
      arraySort_oldest_pairwise D _, arraySort_ties_sublist D "oldest" tasks _⟩⟩

/-- Instance of the preceding theorem: the scenario and its to-do column. -/
theorem getColumnTasks_sorted_stable_witness :
    StringStatuses scenario
    ∧ (∃ l : List Task, getColumnTasks asciiCase sampleHost scenario "" "recent" "TODO"
          = some (l.map (displayed sampleHost))
        ∧ l.Pairwise (fun a b => created sampleHost b ≤ created sampleHost a)
        ∧ ∀ c : Int, (l.filter (fun t => decide (created sampleHost t = c))).Sublist scenario)
    ∧ (∃ l : List Task, getColumnTasks asciiCase sampleHost scenario "" "oldest" "TODO"
          = some (l.map (displayed sampleHost))
        ∧ l.Pairwise (fun a b => created sampleHost a ≤ created sampleHost b)
        ∧ ∀ c : Int, (l.filter (fun t => decide (created sampleHost t = c))).Sublist scenario) :=
  ⟨by decide,
    getColumnTasks_sorted_stable asciiCase sampleHost scenario "TODO" "" (by decide)⟩

/-! ## Update, delete and failure -/

theorem spread_patchedFrom (t : Task) (p : Patch) : PatchedFrom t p (spread t p) := by
  unfold PatchedFrom spread
  refine ⟨⟨?_, ?_⟩, ⟨?_, ?_⟩, ⟨?_, ?_⟩, ⟨?_, ?_⟩, ⟨?_, ?_⟩⟩ <;> intro h <;> simp_all

/-- C4: after a successful update (the edit branch of `saveTask`, for the task
`cur` being edited and the patch `task`) the collection has the same length,
and position by position a record whose id is that of `cur` has every field
named in the patch set to the patch's value and every other field unchanged,
while a record with a different id is unchanged. -/
theorem saveTask_edit_success (tasks : List Task) (cur : Task) (task : Patch) (now : String)
    (data : Task) :
    (tasksAfter tasks (saveTask tasks (some cur) task now (.success data))).length
        = tasks.length
    ∧ List.Forall₂
        (fun t u => (t._id = cur._id → PatchedFrom t task u) ∧ (t._id ≠ cur._id → u = t))
        tasks (tasksAfter tasks (saveTask tasks (some cur) task now (.success data))) := by
  have h : tasksAfter tasks (saveTask tasks (some cur) task now (.success data))
      = tasks.map (fun t => if t._id = cur._id then spread t task else t) := rfl
  rw [h]
  refine ⟨List.length_map _ _, ?_⟩
  rw [List.forall₂_map_right_iff, List.forall₂_same]
  intro t _
  by_cases hid : t._id = cur._id
  · simp only [hid, if_true, ne_eq, not_true_eq_false, false_implies, and_true]
    exact fun _ => spread_patchedFrom t task
  · simp [hid]

theorem filter_ne_of_not_mem (id : JsVal) :
    ∀ l : List Task, id ∉ l.map (·._id) → l.filter (fun t => t._id ≠ id) = l
  | [], _ => rfl
  | t :: l, h => by
    simp only [List.map_cons, List.mem_cons, not_or] at h
    have ht : t._id ≠ id := fun e => h.1 e.symm
    rw [List.filter_cons, if_pos (decide_eq_true ht), filter_ne_of_not_mem id l h.2]

theorem filter_ne_split (id : JsVal) :
    ∀ tasks : List Task, (tasks.map (·._id)).Nodup → id ∈ tasks.map (·._id) →
      ∃ l1 t l2, tasks = l1 ++ t :: l2 ∧ t._id = id
        ∧ tasks.filter (fun t => t._id ≠ id) = l1 ++ l2
        ∧ id ∉ (l1 ++ l2).map (·._id)
  | [], _, h => by simp at h
  | t :: l, hnd, hmem => by
    rw [List.map_cons, List.nodup_cons] at hnd
    by_cases ht : t._id = id
    · have hnot : id ∉ l.map (·._id) := ht ▸ hnd.1
      refine ⟨[], t, l, rfl, ht, ?_, by simpa using hnot⟩
      rw [List.filter_cons, if_neg (by simpa using ht), filter_ne_of_not_mem id l hnot]
      rfl
    · have hmem2 : id ∈ l.map (·._id) := by
        rcases List.mem_cons.mp hmem with h | h
        · exact absurd h.symm ht
        · exact h
      obtain ⟨l1, x, l2, hl, hx, hf, hn⟩ := filter_ne_split id l hnd.2 hmem2
      refine ⟨t :: l1, x, l2, by rw [hl]; rfl, hx, ?_, ?_⟩
      · rw [List.filter_cons, if_pos (decide_eq_true ht), hf]
        rfl
      · simp only [List.cons_append, List.map_cons, List.mem_cons, not_or]
        exact ⟨fun e => ht e.symm, hn⟩

/-- C5: for a collection with unique ids and an id present in it, a successful
`deleteTask(id)` yields the collection with exactly the one record of that id
taken out: the collection is `l1 ++ t :: l2` with `t` the record of that id,
the result is `l1 ++ l2` (one record shorter, the others unchanged and in
their order), and no record of the result has that id. -/
theorem deleteTask_success (tasks : List Task) (id : JsVal)
    (hnodup : (tasks.map (·._id)).Nodup) (hmem : id ∈ tasks.map (·._id)) :
    ∃ l1 t l2, tasks = l1 ++ t :: l2 ∧ t._id = id
      ∧ tasksAfter tasks (deleteTask tasks id (.success ())) = l1 ++ l2
      ∧ (tasksAfter tasks (deleteTask tasks id (.success ()))).length + 1 = tasks.length
      ∧ ∀ r ∈ tasksAfter tasks (deleteTask tasks id (.success ())), r._id ≠ id := by
  have h : tasksAfter tasks (deleteTask tasks id (.success ()))
      = tasks.filter (fun t => t._id ≠ id) := rfl
  obtain ⟨l1, t, l2, hl, ht, hf, hn⟩ := filter_ne_split id tasks hnodup hmem
  refine ⟨l1, t, l2, hl, ht, h.trans hf, ?_, ?_⟩
  · rw [h, hf, hl]; simp [Nat.add_assoc]
  · intro r hr e
    rw [h, hf] at hr
    exact hn (List.mem_map.mpr ⟨r, hr, e⟩)

/-- Instance of the preceding theorem: deleting id 1 from the scenario. -/
theorem deleteTask_success_witness :
    (scenario.map (·._id)).Nodup ∧ JsVal.str "1" ∈ scenario.map (·._id)
    ∧ ∃ l1 t l2, scenario = l1 ++ t :: l2 ∧ t._id = .str "1"
      ∧ tasksAfter scenario (deleteTask scenario (.str "1") (.success ())) = l1 ++ l2
      ∧ (tasksAfter scenario (deleteTask scenario (.str "1") (.success ()))).length + 1
          = scenario.length
      ∧ ∀ r ∈ tasksAfter scenario (deleteTask scenario (.str "1") (.success ())),
          r._id ≠ .str "1" :=
  ⟨by decide, by decide, deleteTask_success scenario (.str "1") (by decide) (by decide)⟩

/-- C7: when the remote call fails, `saveTask` in its edit branch, `saveTask`
in its create branch and `deleteTask` call `setTasks` not at all, and the
collection after each of them is the collection before. -/
theorem failure_keeps_tasks (tasks : List Task) (cur : Task) (task : Patch) (now : String)
    (id : JsVal) :
    (tasksAfter tasks (saveTask tasks (some cur) task now .failure) = tasks
      ∧ ∀ ts, Event.setTasks ts ∉ saveTask tasks (some cur) task now .failure)
    ∧ (tasksAfter tasks (saveTask tasks none task now .failure) = tasks
      ∧ ∀ ts, Event.setTasks ts ∉ saveTask tasks none task now .failure)
    ∧ (tasksAfter tasks (deleteTask tasks id .failure) = tasks
      ∧ ∀ ts, Event.setTasks ts ∉ deleteTask tasks id .failure) := by
  refine ⟨⟨rfl, ?_⟩, ⟨rfl, ?_⟩, ⟨rfl, ?_⟩⟩ <;> intro ts <;> simp [saveTask, deleteTask]

/-! ## Move -/

theorem updatedTasks_stringStatuses (tasks : List Task) (id : JsVal) (target : String)
    (hall : StringStatuses tasks) : StringStatuses (updatedTasks tasks id (.str target)) := by
  intro r hr
  obtain ⟨t, ht, rfl⟩ := List.mem_map.mp hr
  by_cases h : t._id = id
  · simp [h, JsVal.isStr]
  · simpa [h] using hall t ht

theorem mem_updatedTasks_of_id (tasks : List Task) (id target : JsVal) (t : Task)
    (ht : t ∈ tasks) (hid : t._id = id) :
    { t with status := target } ∈ updatedTasks tasks id target :=
  List.mem_map.mpr ⟨t, ht, by simp [hid]⟩

theorem status_of_mem_updatedTasks (tasks : List Task) (id target : JsVal) (r : Task)
    (hr : r ∈ updatedTasks tasks id target) (hid : r._id = id) : r.status = target := by
  obtain ⟨t, _, rfl⟩ := List.mem_map.mp hr
  by_cases h : t._id = id
  · simp [h]
  · rw [if_neg h] at hid
    exact absurd hid h

theorem scenario_views (C : CaseHost) (D : DateHost) (t1 t2 : String)
    (h : D.dateValue t1 < D.dateValue t2) :
    (getColumnTasks C D (scenarioAt t1 t2) "" "recent" "TODO").map (fun l => l.map (·._id))
        = some [.str "2", .str "1"]
    ∧ (getColumnTasks C D (updatedTasks (scenarioAt t1 t2) (.str "1") (.str "DONE"))
          "" "recent" "TODO").map (fun l => l.map (·._id)) = some [.str "2"]
    ∧ (getColumnTasks C D (updatedTasks (scenarioAt t1 t2) (.str "1") (.str "DONE"))
          "" "recent" "DONE").map (fun l => l.map (·._id)) = some [.str "1"] := by
  have e1 : (asciiUpper "TODO" == asciiUpper "TODO") = true := by decide
  have e2 : (asciiUpper "DONE" == asciiUpper "TODO") = false := by decide
  have e3 : (asciiUpper "TODO" == asciiUpper "DONE") = false := by decide
  have e4 : (asciiUpper "DONE" == asciiUpper "DONE") = true := by decide
  have e5 : includes (asciiLower "A") (asciiLower "") = true := by decide
  have e6 : includes (asciiLower "B") (asciiLower "") = true := by decide
  have hn : ¬ (D.dateValue t2 - D.dateValue t1 ≤ 0) := by omega
  rw [getColumnTasks_ascii C D (scenarioAt t1 t2) "" "recent" "TODO" rfl rfl rfl,
    getColumnTasks_ascii C D (updatedTasks (scenarioAt t1 t2) (.str "1") (.str "DONE"))
      "" "recent" "TODO" rfl rfl rfl,
    getColumnTasks_ascii C D (updatedTasks (scenarioAt t1 t2) (.str "1") (.str "DONE"))
      "" "recent" "DONE" rfl rfl rfl]
  refine ⟨?_, ?_, ?_⟩
  · simp [getColumnTasks, scenarioAt, filterThrowing, columnPredicate, asciiCase, e1, e5, e6,
      arraySort, insertBy, compareTasks, hn, displayed]
  · simp [getColumnTasks, scenarioAt, updatedTasks, filterThrowing, columnPredicate, asciiCase,
      e1, e2, e5, e6, arraySort, insertBy, displayed]
  · simp [getColumnTasks, scenarioAt, updatedTasks, filterThrowing, columnPredicate, asciiCase,
      e3, e4, e5, e6, arraySort, insertBy, displayed]

/-- C6: for a collection whose statuses are status strings of the data model
or of the source, an id present in it and such a target status, `moveTask`
first sets the collection to `updatedTasks` and only then issues its request,
it sets nothing afterwards, and the collection after it is `updatedTasks`
whether the request succeeds or fails. In that collection every task of the
given id that the search term does not hide (a card can only be dragged while
it is rendered, that is while its title contains the search term, both
lower-cased) is returned by the view of the target; with an empty search term
the view of the target returns a record of that id; and the view of any other
status, the previous one among them, returns no record of that id. For the
scenario with `T1 < T2` the to-do view is `[2, 1]` before and `[2]` after
`moveTask('1', 'DONE')`, and the done view after is `[1]`. -/
theorem moveTask_optimistic (C : CaseHost) (D : DateHost) (tasks : List Task) (id : JsVal)
    (target searchTerm sortBy : String)
    (hdom : StatusesIn knownStatuses tasks) (htarget : target ∈ knownStatuses)
    (hmem : id ∈ tasks.map (·._id)) :
    (∀ reply, (∃ rest, moveTask tasks id (.str target) reply
          = Event.setTasks (updatedTasks tasks id (.str target))
            :: Event.request ⟨.PUT, todoUrl id, some ⟨none, none, none, some (.str target), none⟩⟩
            :: rest
          ∧ ∀ ts, Event.setTasks ts ∉ rest)
        ∧ tasksAfter tasks (moveTask tasks id (.str target) reply)
            = updatedTasks tasks id (.str target))
    ∧ (∃ res, getColumnTasks C D (updatedTasks tasks id (.str target)) searchTerm sortBy target
          = some res
        ∧ ∀ t ∈ tasks, t._id = id →
            (C.toLowerCase searchTerm).data <:+: (C.toLowerCase t.title).data →
            displayed D { t with status := .str target } ∈ res)
    ∧ (∃ res, getColumnTasks C D (updatedTasks tasks id (.str target)) "" sortBy target
          = some res
        ∧ ∃ r ∈ res, r._id = id)
    ∧ (∀ prev ∈ knownStatuses, prev ≠ target →
        ∃ res, getColumnTasks C D (updatedTasks tasks id (.str target)) searchTerm sortBy prev
          = some res
        ∧ ∀ r ∈ res, r._id ≠ id)
    ∧ (∀ t1 t2, D.dateValue t1 < D.dateValue t2 →
        (getColumnTasks C D (scenarioAt t1 t2) "" "recent" "TODO").map (fun l => l.map (·._id))
            = some [.str "2", .str "1"]
        ∧ (getColumnTasks C D (updatedTasks (scenarioAt t1 t2) (.str "1") (.str "DONE"))
              "" "recent" "TODO").map (fun l => l.map (·._id)) = some [.str "2"]
        ∧ (getColumnTasks C D (updatedTasks (scenarioAt t1 t2) (.str "1") (.str "DONE"))
              "" "recent" "DONE").map (fun l => l.map (·._id)) = some [.str "1"]) := by
  have hu := updatedTasks_stringStatuses tasks id target
    (stringStatuses_of_statusesIn _ _ hdom)
  have hshown : ∀ term : String, ∀ t ∈ tasks, t._id = id →
      (C.toLowerCase term).data <:+: (C.toLowerCase t.title).data →
      displayed D { t with status := .str target }
        ∈ (arraySort (compareTasks D sortBy)
            ((updatedTasks tasks id (.str target)).filter (inColumn C term target))).map
            (displayed D) := by
    intro term t ht hid hin
    refine List.mem_map.mpr ⟨_, ?_, rfl⟩
    rw [mem_arraySort, List.mem_filter]
    exact ⟨mem_updatedTasks_of_id tasks id (.str target) t ht hid,
      (inColumn_iff _ _ _ _).mpr ⟨target, rfl, rfl, hin⟩⟩
  refine ⟨?_, ?_, ?_, ?_, fun t1 t2 h => scenario_views C D t1 t2 h⟩
  · intro reply
    cases reply with
    | failure => exact ⟨⟨_, rfl, by simp⟩, rfl⟩
    | success d => exact ⟨⟨_, rfl, by simp⟩, rfl⟩
  · exact ⟨_, getColumnTasks_of_stringStatuses C D _ searchTerm sortBy target hu,
      hshown searchTerm⟩
  · refine ⟨_, getColumnTasks_of_stringStatuses C D _ "" sortBy target hu, ?_⟩
    obtain ⟨t, ht, hid⟩ := List.mem_map.mp hmem
    refine ⟨_, hshown "" t ht hid ?_, hid⟩
    rw [C.toLowerCase_ascii "" rfl]
    exact List.nil_infix
  · intro prev hprev hne
    refine ⟨_, getColumnTasks_of_stringStatuses C D _ searchTerm sortBy prev hu, ?_⟩
    intro r hr hid
    obtain ⟨u, hmemu, rfl⟩ := List.mem_map.mp hr
    rw [mem_arraySort, List.mem_filter] at hmemu
    obtain ⟨k, hk, hup, _⟩ := (inColumn_iff _ _ _ _).mp hmemu.2
    have hst := status_of_mem_updatedTasks tasks id (.str target) u hmemu.1 hid
    rw [hk] at hst
    injection hst with hst
    subst hst
    rw [toUpperCase_of_mem_knownStatuses C k htarget,
      toUpperCase_of_mem_knownStatuses C prev hprev] at hup
    exact hne hup.symm

/-- Instance of the preceding theorem: moving id 1 of the scenario to `'DONE'`. -/
theorem moveTask_optimistic_witness :
    StatusesIn knownStatuses scenario ∧ "DONE" ∈ knownStatuses
    ∧ JsVal.str "1" ∈ scenario.map (·._id)
    ∧ ((∀ reply, (∃ rest, moveTask scenario (.str "1") (.str "DONE") reply
            = Event.setTasks (updatedTasks scenario (.str "1") (.str "DONE"))
              :: Event.request ⟨.PUT, todoUrl (.str "1"),
                  some ⟨none, none, none, some (.str "DONE"), none⟩⟩
              :: rest
            ∧ ∀ ts, Event.setTasks ts ∉ rest)
          ∧ tasksAfter scenario (moveTask scenario (.str "1") (.str "DONE") reply)
              = updatedTasks scenario (.str "1") (.str "DONE"))
      ∧ (∃ res, getColumnTasks asciiCase sampleHost
            (updatedTasks scenario (.str "1") (.str "DONE")) "a" "recent" "DONE" = some res
          ∧ ∀ t ∈ scenario, t._id = .str "1" →
              (asciiCase.toLowerCase "a").data <:+: (asciiCase.toLowerCase t.title).data →
              displayed sampleHost { t with status := .str "DONE" } ∈ res)
      ∧ (∃ res, getColumnTasks asciiCase sampleHost
            (updatedTasks scenario (.str "1") (.str "DONE")) "" "recent" "DONE" = some res
          ∧ ∃ r ∈ res, r._id = .str "1")
      ∧ (∀ prev ∈ knownStatuses, prev ≠ "DONE" →
          ∃ res, getColumnTasks asciiCase sampleHost
            (updatedTasks scenario (.str "1") (.str "DONE")) "a" "recent" prev = some res
          ∧ ∀ r ∈ res, r._id ≠ .str "1")
      ∧ (∀ t1 t2, sampleHost.dateValue t1 < sampleHost.dateValue t2 →
          (getColumnTasks asciiCase sampleHost (scenarioAt t1 t2) "" "recent" "TODO").map
              (fun l => l.map (·._id)) = some [.str "2", .str "1"]
          ∧ (getColumnTasks asciiCase sampleHost
                (updatedTasks (scenarioAt t1 t2) (.str "1") (.str "DONE"))
                "" "recent" "TODO").map (fun l => l.map (·._id)) = some [.str "2"]
          ∧ (getColumnTasks asciiCase sampleHost
                (updatedTasks (scenarioAt t1 t2) (.str "1") (.str "DONE"))
                "" "recent" "DONE").map (fun l => l.map (·._id)) = some [.str "1"])) :=
  ⟨by decide, by decide, by decide,
    moveTask_optimistic asciiCase sampleHost scenario (.str "1") "DONE" "a" "recent"
      (by decide) (by decide) (by decide)⟩

/-! ## Hover -/

theorem hover_requests (tasks : List Task) (i j : Nat) (reply : Reply Unit) (h : i ≠ j) :
    requestsOf (hover tasks i j reply).1
      = [⟨.PUT, todoUrl (.num i), some ⟨none, none, none, some (.num j), none⟩⟩] := by
  cases reply <;> simp [hover, h, moveTask, requestsOf]

theorem hover_keeps_tasks (tasks : List Task) (i j : Nat) (reply : Reply Unit)
    (hids : ∀ t ∈ tasks, t._id.isStr = true) :
    tasksAfter tasks (hover tasks i j reply).1 = tasks := by
  have hmap : updatedTasks tasks (.num i) (.num j) = tasks := by
    unfold updatedTasks
    conv_rhs => rw [← List.map_id tasks]
    refine List.map_congr_left (fun t ht => ?_)
    have hne : t._id ≠ .num i := by
      intro e
      have := hids t ht
      rw [e] at this
      simp [JsVal.isStr] at this
    simp [hne]
  by_cases h : i = j
  · simp [hover, h, tasksAfter]
  · cases reply <;> simp [hover, h, moveTask, tasksAfter, hmap]

/-- C8, evaluated: hovering the card at index 1 with the card dragged from
index 0 over the scenario calls `moveTask(0, 1)`, which sets the collection to
an unchanged copy and submits `PUT /api/todos/0` with the body `{ status: 1 }`
to the remote store. -/
theorem hover_submits_request :
    hover scenario 0 1 (.success ())
      = ([.setTasks scenario,
          .request ⟨.PUT, "http://localhost:3000/api/todos/0",
            some ⟨none, none, none, some (.num 1), none⟩⟩], 1)
    ∧ requestsOf (hover scenario 0 1 (.success ())).1 ≠ []
    ∧ tasksAfter scenario (hover scenario 0 1 (.success ())).1 = scenario := by
  decide

/-! ## Status values -/

/-- C9, as stated, fails: every status of the scenario is one of `TODO`,
`IN_PROGRESS`, `DONE`; `'TO DO'` and `'IN PROGRESS'` are targets the columns
pass to `moveTask`; and after `moveTask('1', 'TO DO')`, as after
`moveTask('1', 'IN PROGRESS')`, the status of task 1 is none of the three. -/
theorem moveTask_leaves_enum :
    StatusesIn enumStatuses scenario
    ∧ "TO DO" ∈ columnStatuses
    ∧ ¬ StatusesIn enumStatuses
        (tasksAfter scenario (moveTask scenario (.str "1") (.str "TO DO") (.success ())))
    ∧ "IN PROGRESS" ∈ columnStatuses
    ∧ ¬ StatusesIn enumStatuses
        (tasksAfter scenario
          (moveTask scenario (.str "1") (.str "IN PROGRESS") (.success ()))) := by
  decide

theorem statusesIn_updatedTasks (allowed : List String) (tasks : List Task) (id : JsVal)
    (target : String) (ht : target ∈ allowed) (h : StatusesIn allowed tasks) :
    StatusesIn allowed (updatedTasks tasks id (.str target)) := by
  intro r hr
  obtain ⟨t, htm, rfl⟩ := List.mem_map.mp hr
  by_cases hid : t._id = id
  · exact ⟨target, ht, by simp [hid]⟩
  · simpa [hid] using h t htm

/-- C9, amended: the predicate that every task's status is one of the three
column values `'TO DO'`, `'IN PROGRESS'`, `'DONE'` is preserved by
`deleteTask`, by the edit branch of `saveTask` with a patch that does not name
`status`, and by `moveTask` with any of the column values as target, whatever
the remote store replies. -/
theorem columnStatuses_preserved (tasks : List Task) (h : StatusesIn columnStatuses tasks) :
    (∀ id reply, StatusesIn columnStatuses (tasksAfter tasks (deleteTask tasks id reply)))
    ∧ (∀ cur task now reply, task.status = none →
        StatusesIn columnStatuses (tasksAfter tasks (saveTask tasks (some cur) task now reply)))
    ∧ (∀ id target reply, target ∈ columnStatuses →
        StatusesIn columnStatuses
          (tasksAfter tasks (moveTask tasks id (.str target) reply))) := by
  refine ⟨?_, ?_, ?_⟩
  · intro id reply
    cases reply with
    | failure => exact h
    | success d =>
      intro r hr
      have hr2 : r ∈ tasks.filter (fun t => t._id ≠ id) := hr
      exact h r (List.mem_filter.mp hr2).1
  · intro cur task now reply hst
    cases reply with
    | failure => exact h
    | success d =>
      intro r hr
      have hr2 : r ∈ tasks.map (fun t => if t._id = cur._id then spread t task else t) := hr
      obtain ⟨t, htm, rfl⟩ := List.mem_map.mp hr2
      by_cases hid : t._id = cur._id
      · simpa [hid, spread, hst] using h t htm
      · simpa [hid] using h t htm
  · intro id target reply ht
    have e : tasksAfter tasks (moveTask tasks id (.str target) reply)
        = updatedTasks tasks id (.str target) := by cases reply <;> rfl
    rw [e]
    exact statusesIn_updatedTasks columnStatuses tasks id target ht h

/-- Instance of the preceding theorem: the collection `board`. -/
theorem columnStatuses_preserved_witness :
    StatusesIn columnStatuses board
    ∧ (∀ id reply, StatusesIn columnStatuses (tasksAfter board (deleteTask board id reply)))
    ∧ (∀ cur task now reply, task.status = none →
        StatusesIn columnStatuses (tasksAfter board (saveTask board (some cur) task now reply)))
    ∧ (∀ id target reply, target ∈ columnStatuses →
        StatusesIn columnStatuses
          (tasksAfter board (moveTask board id (.str target) reply))) :=
  ⟨by decide, columnStatuses_preserved board (by decide)⟩

/-! ## Create -/

theorem todo_in_no_column (C : CaseHost) (D : DateHost) (tasks : List Task)
    (searchTerm sortBy c : String)
    (hc : c ∈ columnStatuses) (hall : StringStatuses tasks) :
    ∃ res, getColumnTasks C D tasks searchTerm sortBy c = some res
      ∧ ∀ r ∈ res, r.status ≠ .str "TODO" := by
  refine ⟨_, getColumnTasks_of_stringStatuses C D tasks searchTerm sortBy c hall, ?_⟩
  intro r hr hst
  obtain ⟨u, hmem, rfl⟩ := List.mem_map.mp hr
  rw [mem_arraySort, List.mem_filter] at hmem
  obtain ⟨s, hs, hup, _⟩ := (inColumn_iff _ _ _ _).mp hmem.2
  have e : JsVal.str s = JsVal.str "TODO" := hs.symm.trans hst
  injection e with e
  subst e
  rw [toUpperCase_of_mem_knownStatuses C "TODO" (by decide),
    toUpperCase_of_mem_knownStatuses C c (mem_knownStatuses_of_mem_columnStatuses c hc)] at hup
  subst hup
  revert hc
  decide

/-- C10, evaluated: on `board` a successful create of the draft titled `B`
submits the body with status `'TODO'`, and with the store returning that
record with an id the collection becomes `board` with the record appended;
with an empty search term the views of the three rendered columns `'TO DO'`,
`'IN PROGRESS'`, `'DONE'` are then the old task of `board`, nothing and
nothing: the new task is in none of them. -/
theorem created_task_in_no_column (C : CaseHost) :
    requestsOf (saveTask board none ⟨none, some "B", some "", none, none⟩
        "2024-01-02T00:00:00.000Z" (.success createdRecord))
      = [⟨.POST, "http://localhost:3000/api/todos",
          some ⟨none, some "B", some "", some (.str "TODO"),
            some "2024-01-02T00:00:00.000Z"⟩⟩]
    ∧ tasksAfter board (saveTask board none ⟨none, some "B", some "", none, none⟩
        "2024-01-02T00:00:00.000Z" (.success createdRecord)) = board ++ [createdRecord]
    ∧ columnStatuses.map (getColumnTasks C sampleHost (board ++ [createdRecord]) "" "recent")
      = [some [⟨.str "1", "A", "", .str "TO DO", "1/1/2024, 5:30:00 am"⟩], some [], some []] := by
  refine ⟨by decide, by decide, ?_⟩
  simp only [columnStatuses, List.map]
  rw [getColumnTasks_ascii C sampleHost (board ++ [createdRecord]) "" "recent" "TO DO"
      (by decide) (by decide) (by decide),
    getColumnTasks_ascii C sampleHost (board ++ [createdRecord]) "" "recent" "IN PROGRESS"
      (by decide) (by decide) (by decide),
    getColumnTasks_ascii C sampleHost (board ++ [createdRecord]) "" "recent" "DONE"
      (by decide) (by decide) (by decide)]
  decide

end Dashboard
